import Mathlib

/-!
Verification development for the well-scheduler service
(`src/well_scheduler_app.py`).

The service has two endpoints:

* `POST /optimize-schedule/` → `optimize_schedule`, which delegates to
  `optimize_well_schedule`.  That function builds a binary program with the
  PuLP library (one 0/1 variable per (well, timeframe) pair, objective
  `Σ var · capex[well][t-1]`, per-well constraint `Σ_t var ≤ 1`, per-timeframe
  constraint `Σ_w var ≤ rig_limit`), calls `problem.solve()` while ignoring the
  returned status, and extracts every pair whose solved variable value is 1 as
  an entry `{well, start_time = t, finish_time = t+1}`.
* `GET /schedule-visualization/` → `visualize_schedule`, which renders a fixed
  five-well sample table through plotly and wraps it in an HTML page with
  status code 200.

The embedding below translates the Python source directly.  The external
solver (PuLP/CBC) is not part of the repository; following the spec's solver
contract it is modelled as an opaque outcome: a status flag plus a 0/1 (Bool)
valuation of the decision variables.  Costs are taken as integers.
-/

namespace WellScheduler

/-- Embeds Python `range(a, b)`: the integers `a, a+1, …, b-1`. -/
def pyRange (a b : Int) : List Int :=
  (List.range (b - a).toNat).map (fun i : Nat => a + (i : Int))

/-- The timeframe list `range(1, timeframes + 1)` used by every loop in
`optimize_well_schedule`. -/
def tfRange (timeframes : Int) : List Int :=
  pyRange 1 (timeframes + 1)

/-- Python list indexing `l[i]`, with negative-index wrap-around;
`none` models an `IndexError`.  (The code only ever indexes with `t - 1` for
`t ≥ 1`, so the wrap-around branch is never reached.) -/
def pyIndex (l : List Int) (i : Int) : Option Int :=
  if h : 0 ≤ i ∧ i.toNat < l.length then some (l.get ⟨i.toNat, h.2⟩)
  else if h2 : i < 0 ∧ 0 ≤ i + l.length ∧ (i + l.length).toNat < l.length then
    some (l.get ⟨(i + l.length).toNat, h2.2.2⟩)
  else none

/-- Python dict lookup `capex[well]`; `none` models a `KeyError`.  The dict is
embedded as an association list with distinct keys. -/
def dictGet (capex : List (String × List Int)) (w : String) : Option (List Int) :=
  (capex.find? (fun kv => kv.1 == w)).map (fun kv => kv.2)

/-- The request body of `POST /optimize-schedule/` (pydantic model
`WellScheduleRequest`): `wells`, `timeframes`, `capex`, `rig_limit`. -/
structure WellScheduleRequest where
  wells : List String
  timeframes : Int
  capex : List (String × List Int)
  rig_limit : Int

/-- One schedule entry of the response (pydantic model `WellScheduleResponse`). -/
structure WellScheduleResponse where
  well : String
  start_time : Int
  finish_time : Int
deriving DecidableEq, Repr

/-- The (well, timeframe) pairs in the iteration order the code uses for the
objective (line 31) and for result extraction (lines 46-48): outer loop over
`wells`, inner loop over `range(1, timeframes + 1)`. -/
def varGrid (wells : List String) (timeframes : Int) : List (String × Int) :=
  wells.flatMap (fun w => (tfRange timeframes).map (fun t => (w, t)))

/-- Construction of the objective (line 31): the coefficient
`capex[well][t-1]` for every (well, timeframe) pair.  A missing dict key or a
cost list shorter than required raises there, before `problem.solve()` is
reached; the `Except` error records that exception. -/
def objectiveTerms (wells : List String) (timeframes : Int)
    (capex : List (String × List Int)) :
    Except String (List ((String × Int) × Int)) :=
  (varGrid wells timeframes).mapM (fun p =>
    match dictGet capex p.1 with
    | none => .error ("KeyError: " ++ p.1)
    | some cs =>
      match pyIndex cs (p.2 - 1) with
      | none => .error ("IndexError: " ++ p.1)
      | some c => .ok (p, c))

/-- Modelled from the spec: the external constraint solver is an opaque
collaborator that "receives the model, returns variable assignments or an
infeasibility signal".  `status` is the signal `problem.solve()` returns
(PuLP: 1 = optimal, -1 = infeasible, …) and `value p` abstracts the test
`pulp.value(drill_vars[well][t]) == 1` on the solved binary variable. -/
structure SolverOutcome where
  status : Int
  value : String × Int → Bool

/-- Result extraction (lines 45-49): for each well and timeframe, if the
solved variable value equals 1, append `{well, start_time = t,
finish_time = t + 1}`. -/
def extractSchedule (wells : List String) (timeframes : Int)
    (value : String × Int → Bool) : List WellScheduleResponse :=
  wells.flatMap (fun w =>
    ((tfRange timeframes).filter (fun t => value (w, t))).map
      (fun t => ⟨w, t, t + 1⟩))

/-- `optimize_well_schedule` (lines 23-51): build the model — the only step
that can raise is the objective construction — then call the solver (its
`status` is ignored, exactly as line 42 discards the result of
`problem.solve()`) and extract the schedule from the variable values. -/
def optimize_well_schedule (req : WellScheduleRequest) (out : SolverOutcome) :
    Except String (List WellScheduleResponse) :=
  match objectiveTerms req.wells req.timeframes req.capex with
  | .error e => .error e
  | .ok _ => .ok (extractSchedule req.wells req.timeframes out.value)

/-- The `POST /optimize-schedule/` handler (lines 56-59): it forwards the
request fields to `optimize_well_schedule` unchanged. -/
def optimize_schedule (req : WellScheduleRequest) (out : SolverOutcome) :
    Except String (List WellScheduleResponse) :=
  optimize_well_schedule req out

/-- The constraints of the model the code builds (lines 34-39): each well's
variables sum to at most 1, and for each timeframe the variables of all wells
sum to at most `rig_limit`.  For 0/1 variables these sums are the counts of
`true` values. -/
def Feasible (wells : List String) (timeframes rig_limit : Int)
    (value : String × Int → Bool) : Prop :=
  (∀ w ∈ wells, ((tfRange timeframes).countP (fun t => value (w, t)) : Int) ≤ 1) ∧
  (∀ t ∈ tfRange timeframes, ((wells.countP (fun w => value (w, t)) : Int) ≤ rig_limit))

/-- The objective value (line 31) of a 0/1 valuation: the sum of the cost
coefficients of the variables set to 1. -/
def solCost (terms : List ((String × Int) × Int))
    (value : String × Int → Bool) : Int :=
  (terms.map (fun pc => if value pc.1 then pc.2 else 0)).sum

/-- Modelled from the spec: the solver contract — "find a feasible,
cost-minimal assignment satisfying all constraints".  A successful solve
returns a valuation that satisfies the model's constraints and minimises the
objective among all valuations satisfying them. -/
def OptimalFor (wells : List String) (timeframes rig_limit : Int)
    (terms : List ((String × Int) × Int)) (value : String × Int → Bool) : Prop :=
  Feasible wells timeframes rig_limit value ∧
  ∀ v : String × Int → Bool, Feasible wells timeframes rig_limit v →
    solCost terms value ≤ solCost terms v

/-- A valid request in the sense of the spec's data model: unique well
labels, a positive timeframe count, a cost row of exactly `timeframes`
entries for every well, and a non-negative rig capacity. -/
def ValidRequest (req : WellScheduleRequest) : Prop :=
  req.wells.Nodup ∧ 0 < req.timeframes ∧
  (∀ w ∈ req.wells, ∃ cs, dictGet req.capex w = some cs ∧
    (cs.length : Int) = req.timeframes) ∧
  0 ≤ req.rig_limit

instance (wells : List String) (timeframes rig_limit : Int)
    (value : String × Int → Bool) :
    Decidable (Feasible wells timeframes rig_limit value) := by
  unfold Feasible
  infer_instance

/-- The cost coefficient `capex[well][t-1]` of a decision variable, defaulting
to 0 where the model has no coefficient (never reached on a valid request). -/
def coeff (capex : List (String × List Int)) (p : String × Int) : Int :=
  match dictGet capex p.1 with
  | none => 0
  | some cs =>
    match pyIndex cs (p.2 - 1) with
    | none => 0
    | some c => c

/-- The capex cost of one returned schedule entry. -/
def entryCost (capex : List (String × List Int)) (e : WellScheduleResponse) : Int :=
  coeff capex (e.well, e.start_time)

/-- The total capex cost of a returned schedule. -/
def scheduleCost (capex : List (String × List Int))
    (sched : List WellScheduleResponse) : Int :=
  (sched.map (entryCost capex)).sum

/-- The spec's §8 scenario request: wells A and B, two timeframes,
capex A = [10, 5], B = [8, 12], one rig per timeframe. -/
def R6 : WellScheduleRequest :=
  { wells := ["A", "B"], timeframes := 2,
    capex := [("A", [10, 5]), ("B", [8, 12])], rig_limit := 1 }

/-- The objective coefficients the code builds for `R6`. -/
def terms6 : List ((String × Int) × Int) :=
  [(("A", 1), 10), (("A", 2), 5), (("B", 1), 8), (("B", 2), 12)]

/-- A solver outcome reporting success with every variable at 0. -/
def outAllFalse : SolverOutcome := ⟨1, fun _ => false⟩

/-- A solver outcome reporting infeasibility (PuLP status -1); no variable
was set. -/
def outInfeasible : SolverOutcome := ⟨-1, fun _ => false⟩

/-- A solver outcome reporting success with every variable at 1. -/
def outAllTrue : SolverOutcome := ⟨1, fun _ => true⟩

/-- The solver outcome that assigns well A to timeframe 2 and well B to
timeframe 1 — the assignment the spec's scenario expects. -/
def outAB : SolverOutcome :=
  ⟨1, fun p => (p.1 == "A" && p.2 == 2) || (p.1 == "B" && p.2 == 1)⟩

/-- The schedule extracted from `outAB` on `R6`. -/
def schedAB : List WellScheduleResponse := [⟨"A", 2, 3⟩, ⟨"B", 1, 2⟩]

/-- A valid request with rig capacity 0. -/
def R7 : WellScheduleRequest :=
  { wells := ["A"], timeframes := 1, capex := [("A", [3])], rig_limit := 0 }

/-- A request with a non-positive timeframe count (no validation rejects it). -/
def R4a : WellScheduleRequest :=
  { wells := ["A"], timeframes := 0, capex := [("A", [])], rig_limit := 1 }

/-- A request whose capex table is missing declared well B. -/
def R4b : WellScheduleRequest :=
  { wells := ["A", "B"], timeframes := 1, capex := [("A", [1])], rig_limit := 1 }

/-- A request whose capex row for well A is shorter than `timeframes`. -/
def R4c : WellScheduleRequest :=
  { wells := ["A"], timeframes := 2, capex := [("A", [1])], rig_limit := 1 }

/-- A request whose model is infeasible: a negative rig limit can never be
satisfied, since a count of scheduled wells is at least 0. -/
def R5 : WellScheduleRequest :=
  { wells := ["A"], timeframes := 1, capex := [("A", [1])], rig_limit := -1 }

/-- The same request with a feasible rig limit, whose cost-minimal solution
schedules zero wells. -/
def R5ok : WellScheduleRequest :=
  { wells := ["A"], timeframes := 1, capex := [("A", [1])], rig_limit := 1 }

/-- The fixed sample table of the visualization endpoint (lines 65-70). -/
structure ScheduleData where
  Well : List String
  Start : List String
  Finish : List String
  Resource : List String
deriving DecidableEq, Repr

/-- The hard-coded `schedule_data` dict (lines 65-70): five sample wells with
literal date ranges and rig labels, written independently of any
optimization result. -/
def schedule_data : ScheduleData :=
  { Well := ["Well_1", "Well_2", "Well_3", "Well_4", "Well_5"]
    Start := ["2024-01-01", "2024-02-15", "2024-03-01", "2024-03-20", "2024-04-01"]
    Finish := ["2024-02-01", "2024-03-15", "2024-04-01", "2024-04-20", "2024-05-01"]
    Resource := ["Rig_A", "Rig_A", "Rig_B", "Rig_B", "Rig_A"] }

/-- An HTTP response of the visualization endpoint (fastapi `HTMLResponse`). -/
structure HTMLResponse where
  content : String
  status_code : Int
deriving DecidableEq, Repr

/-- `visualize_schedule` (lines 62-80): build the fixed sample table, render
it through the external charting collaborator (pandas + plotly, abstracted as
`render`), and wrap the markup in an HTML page with status code 200.  The
handler takes no request data and reads no state. -/
def visualize_schedule (render : ScheduleData → String) : HTMLResponse :=
  { content := "<html><body>" ++ render schedule_data ++ "</body></html>"
    status_code := 200 }

theorem mem_tfRange {t timeframes : Int} :
    t ∈ tfRange timeframes ↔ 1 ≤ t ∧ t ≤ timeframes := by
  simp only [tfRange, pyRange, List.mem_map, List.mem_range]
  constructor
  · rintro ⟨i, hi, rfl⟩
    omega
  · rintro ⟨h1, h2⟩
    exact ⟨(t - 1).toNat, by omega, by omega⟩

theorem tfRange_nodup (timeframes : Int) : (tfRange timeframes).Nodup := by
  refine List.Nodup.map ?_ (List.nodup_range _)
  intro a b h
  simp only [] at h
  omega

theorem tfRange_eq_nil {timeframes : Int} (h : timeframes ≤ 0) :
    tfRange timeframes = [] := by
  unfold tfRange pyRange
  have h0 : (timeframes + 1 - 1).toNat = 0 := by omega
  rw [h0]
  rfl

theorem mem_extractSchedule {wells : List String} {timeframes : Int}
    {value : String × Int → Bool} {e : WellScheduleResponse} :
    e ∈ extractSchedule wells timeframes value ↔
      e.well ∈ wells ∧ e.start_time ∈ tfRange timeframes ∧
        value (e.well, e.start_time) = true ∧
        e.finish_time = e.start_time + 1 := by
  obtain ⟨w, t, ft⟩ := e
  simp only [extractSchedule, List.mem_flatMap, List.mem_map, List.mem_filter]
  constructor
  · rintro ⟨w', hw', t', ⟨ht', hv⟩, heq⟩
    cases heq
    exact ⟨hw', ht', hv, rfl⟩
  · rintro ⟨hw, ht, hv, rfl⟩
    exact ⟨w, hw, t, ⟨ht, hv⟩, rfl⟩

theorem extractSchedule_eq_nil {wells : List String} {timeframes : Int}
    {value : String × Int → Bool}
    (h : ∀ w ∈ wells, ∀ t ∈ tfRange timeframes, value (w, t) = false) :
    extractSchedule wells timeframes value = [] := by
  rw [List.eq_nil_iff_forall_not_mem]
  intro e he
  rw [mem_extractSchedule] at he
  have hf := h e.well he.1 e.start_time he.2.1
  rw [he.2.2.1] at hf
  cases hf

theorem countP_eq_ite_of_nodup {l : List Int} {t : Int} (q : Int → Bool)
    (hnd : l.Nodup) (ht : t ∈ l) :
    l.countP (fun x => (x == t) && q x) = if q t then 1 else 0 := by
  induction l with
  | nil => cases ht
  | cons a l ih =>
    rcases List.mem_cons.mp ht with heq | htl
    · subst heq
      have hz : l.countP (fun x => (x == t) && q x) = 0 := by
        rw [List.countP_eq_zero]
        intro x hx
        have hne : x ≠ t := fun h => (List.nodup_cons.mp hnd).1 (h ▸ hx)
        simp [hne]
      rw [List.countP_cons, hz]
      simp
    · have hna : a ≠ t := fun h => (List.nodup_cons.mp hnd).1 (h ▸ htl)
      rw [List.countP_cons, ih (List.nodup_cons.mp hnd).2 htl]
      simp [hna]

theorem countP_start_extract (wells : List String) {timeframes t : Int}
    (value : String × Int → Bool) (ht : t ∈ tfRange timeframes) :
    (extractSchedule wells timeframes value).countP (fun e => e.start_time == t)
      = wells.countP (fun w => value (w, t)) := by
  induction wells with
  | nil => rfl
  | cons w ws ih =>
    simp only [extractSchedule, List.flatMap_cons, List.countP_append] at ih ⊢
    rw [List.countP_map, List.countP_cons, ih]
    have hcomp :
        ((fun e : WellScheduleResponse => e.start_time == t) ∘
            fun t' => ⟨w, t', t' + 1⟩) = fun t' : Int => t' == t := rfl
    rw [hcomp, List.countP_filter,
      countP_eq_ite_of_nodup (fun t' => value (w, t')) (tfRange_nodup _) ht]
    omega

theorem countP_well_extract_le (wells : List String) {timeframes : Int}
    (value : String × Int → Bool) (w : String)
    (hnd : wells.Nodup)
    (h1 : ∀ w' ∈ wells,
      ((tfRange timeframes).countP (fun t => value (w', t)) : Int) ≤ 1) :
    ((extractSchedule wells timeframes value).countP
      (fun e => e.well == w) : Int) ≤ 1 := by
  induction wells with
  | nil => simp [extractSchedule]
  | cons w' ws ih =>
    simp only [extractSchedule, List.flatMap_cons, List.countP_append] at ih ⊢
    rw [List.countP_map]
    have hcomp :
        ((fun e : WellScheduleResponse => e.well == w) ∘
            fun t' => ⟨w', t', t' + 1⟩) = fun _ : Int => w' == w := rfl
    rw [hcomp]
    by_cases hww : w' = w
    · subst hww
      have hz : (List.flatMap ws fun a =>
          List.map (fun t => (⟨a, t, t + 1⟩ : WellScheduleResponse))
            (List.filter (fun t => value (a, t)) (tfRange timeframes))).countP
            (fun e => e.well == w') = 0 := by
        rw [List.countP_eq_zero]
        intro e he
        have hmem : e ∈ extractSchedule ws timeframes value := he
        rw [mem_extractSchedule] at hmem
        have : e.well ≠ w' := fun h => (List.nodup_cons.mp hnd).1 (h ▸ hmem.1)
        simp [this]
      rw [hz]
      have hlen : (List.filter (fun t => value (w', t)) (tfRange timeframes)).countP
          (fun _ => w' == w') = (tfRange timeframes).countP (fun t => value (w', t)) := by
        simp [List.countP_filter, List.countP_eq_length_filter]
      rw [hlen]
      have := h1 w' (List.mem_cons_self w' ws)
      omega
    · have hO : (List.filter (fun t => value (w', t)) (tfRange timeframes)).countP
          (fun _ : Int => w' == w) = 0 := by
        rw [List.countP_eq_zero]
        intro x hx
        simp [hww]
      rw [hO]
      have := ih (List.nodup_cons.mp hnd).2
        (fun x hx => h1 x (List.mem_cons_of_mem _ hx))
      omega

theorem mapM_ok_of_forall {α β : Type} (f : α → Except String β) (g : α → β)
    (l : List α) (h : ∀ a ∈ l, f a = .ok (g a)) : l.mapM f = .ok (l.map g) := by
  induction l with
  | nil => rfl
  | cons a l ih =>
    rw [List.mapM_cons, h a (List.mem_cons_self a l),
      ih (fun x hx => h x (List.mem_cons_of_mem _ hx))]
    rfl

theorem mem_varGrid {wells : List String} {timeframes : Int} {p : String × Int} :
    p ∈ varGrid wells timeframes ↔ p.1 ∈ wells ∧ p.2 ∈ tfRange timeframes := by
  obtain ⟨w, t⟩ := p
  simp only [varGrid, List.mem_flatMap, List.mem_map]
  constructor
  · rintro ⟨w', hw', t', ht', heq⟩
    cases heq
    exact ⟨hw', ht'⟩
  · rintro ⟨hw, ht⟩
    exact ⟨w, hw, t, ht, rfl⟩

theorem pyIndex_of_valid {cs : List Int} {t timeframes : Int}
    (hlen : (cs.length : Int) = timeframes) (ht : t ∈ tfRange timeframes) :
    ∃ c, pyIndex cs (t - 1) = some c := by
  rw [mem_tfRange] at ht
  have hc : 0 ≤ t - 1 ∧ (t - 1).toNat < cs.length := by omega
  exact ⟨cs.get ⟨(t - 1).toNat, hc.2⟩, by rw [pyIndex, dif_pos hc]⟩

theorem objectiveTerms_eq_of_valid (req : WellScheduleRequest)
    (hv : ValidRequest req) :
    objectiveTerms req.wells req.timeframes req.capex
      = .ok ((varGrid req.wells req.timeframes).map
          (fun p => (p, coeff req.capex p))) := by
  apply mapM_ok_of_forall
  intro p hp
  rw [mem_varGrid] at hp
  obtain ⟨cs, hcs, hlen⟩ := hv.2.2.1 p.1 hp.1
  obtain ⟨c, hc⟩ := pyIndex_of_valid hlen hp.2
  simp only [coeff, hcs, hc]

theorem optimize_eq_ok {req : WellScheduleRequest} {out : SolverOutcome}
    {sched : List WellScheduleResponse}
    (hs : optimize_well_schedule req out = .ok sched) :
    sched = extractSchedule req.wells req.timeframes out.value := by
  unfold optimize_well_schedule at hs
  cases h : objectiveTerms req.wells req.timeframes req.capex with
  | error e => rw [h] at hs; cases hs
  | ok terms =>
    rw [h] at hs
    injection hs with h2
    exact h2.symm

theorem solCost_nonneg {terms : List ((String × Int) × Int)}
    (value : String × Int → Bool) (h : ∀ pc ∈ terms, 0 ≤ pc.2) :
    0 ≤ solCost terms value := by
  induction terms with
  | nil => simp [solCost]
  | cons pc terms ih =>
    simp only [solCost, List.map_cons, List.sum_cons]
    have h1 : 0 ≤ (if value pc.1 then pc.2 else 0) := by
      split
      · exact h pc (List.mem_cons_self _ _)
      · exact le_refl 0
    have h2 := ih (fun x hx => h x (List.mem_cons_of_mem _ hx))
    simp only [solCost] at h2
    omega

theorem value_false_of_solCost_eq_zero {terms : List ((String × Int) × Int)}
    {value : String × Int → Bool}
    (hpos : ∀ pc ∈ terms, 0 < pc.2) (h0 : solCost terms value = 0) :
    ∀ pc ∈ terms, value pc.1 = false := by
  induction terms with
  | nil => intro pc hpc; cases hpc
  | cons pc terms ih =>
    have hrest : 0 ≤ solCost terms value :=
      solCost_nonneg value (fun x hx => (hpos x (List.mem_cons_of_mem _ hx)).le)
    have hhead : 0 ≤ (if value pc.1 then pc.2 else 0) := by
      split
      · exact (hpos pc (List.mem_cons_self _ _)).le
      · exact le_refl 0
    simp only [solCost, List.map_cons, List.sum_cons] at h0
    have hrest' : solCost terms value = 0 ∧ (if value pc.1 then pc.2 else 0) = 0 := by
      simp only [solCost] at hrest ⊢
      omega
    intro x hx
    rcases List.mem_cons.mp hx with heq | hx'
    · subst heq
      cases hvx : value x.1 with
      | false => rfl
      | true =>
        rw [hvx, if_pos rfl] at hrest'
        have := hpos x (List.mem_cons_self _ _)
        omega
    · exact ih (fun y hy => hpos y (List.mem_cons_of_mem _ hy)) hrest'.1 x hx'

theorem sum_map_filter (l : List Int) (q : Int → Bool) (f : Int → Int) :
    ((l.filter q).map f).sum = (l.map (fun x => if q x then f x else 0)).sum := by
  induction l with
  | nil => rfl
  | cons a l ih =>
    by_cases h : q a <;> simp [List.filter_cons, h, ih]

theorem scheduleCost_extract (capex : List (String × List Int))
    (wells : List String) (timeframes : Int) (value : String × Int → Bool) :
    scheduleCost capex (extractSchedule wells timeframes value)
      = solCost ((varGrid wells timeframes).map (fun p => (p, coeff capex p)))
          value := by
  induction wells with
  | nil => rfl
  | cons w ws ih =>
    simp only [extractSchedule, varGrid, List.flatMap_cons] at ih ⊢
    simp only [scheduleCost, solCost, List.map_append, List.sum_append] at ih ⊢
    rw [ih]
    congr 1
    rw [List.map_map, List.map_map, List.map_map]
    have hcomp1 : (entryCost capex ∘ fun t : Int => (⟨w, t, t + 1⟩ :
        WellScheduleResponse)) = fun t : Int => coeff capex (w, t) := rfl
    have hcomp2 : (((fun pc : (String × Int) × Int =>
        if value pc.1 then pc.2 else 0) ∘ (fun p => (p, coeff capex p))) ∘
          fun t : Int => (w, t))
        = fun t : Int => if value (w, t) then coeff capex (w, t) else 0 := rfl
    rw [hcomp1, hcomp2, sum_map_filter]

theorem feasible_allFalse {wells : List String} {timeframes rig_limit : Int}
    (hrig : 0 ≤ rig_limit) :
    Feasible wells timeframes rig_limit (fun _ => false) := by
  constructor
  · intro w hw
    simp
  · intro t ht
    simpa using hrig

theorem optimal_extract_nil {wells : List String} {timeframes rig_limit : Int}
    {terms : List ((String × Int) × Int)} {value : String × Int → Bool}
    (hrig : 0 ≤ rig_limit)
    (hpos : ∀ pc ∈ terms, 0 < pc.2)
    (hcover : ∀ w ∈ wells, ∀ t ∈ tfRange timeframes, ∃ c, ((w, t), c) ∈ terms)
    (hopt : OptimalFor wells timeframes rig_limit terms value) :
    extractSchedule wells timeframes value = [] ∧ solCost terms value = 0 := by
  have hle := hopt.2 _ (feasible_allFalse hrig)
  have hcostF : solCost terms (fun _ => false) = 0 := by
    simp [solCost]
  rw [hcostF] at hle
  have h0 : solCost terms value = 0 :=
    le_antisymm hle (solCost_nonneg value (fun pc h => (hpos pc h).le))
  have hfalse := value_false_of_solCost_eq_zero hpos h0
  refine ⟨?_, h0⟩
  apply extractSchedule_eq_nil
  intro w hw t ht
  obtain ⟨c, hc⟩ := hcover w hw t ht
  exact hfalse ((w, t), c) hc

theorem validRequest_R6 : ValidRequest R6 := by
  refine ⟨by decide, by decide, ?_, by decide⟩
  intro w hw
  have hw' : w ∈ ["A", "B"] := hw
  fin_cases hw'
  · exact ⟨[10, 5], rfl, rfl⟩
  · exact ⟨[8, 12], rfl, rfl⟩

theorem objectiveTerms_R6 :
    objectiveTerms R6.wells R6.timeframes R6.capex = .ok terms6 := by
  rfl

theorem optimalFor_allFalse_R6 :
    OptimalFor R6.wells R6.timeframes R6.rig_limit terms6 (fun _ => false) := by
  constructor
  · exact feasible_allFalse (by decide)
  · intro v hv
    have hc : solCost terms6 (fun _ => false) = 0 := by simp [solCost]
    rw [hc]
    exact solCost_nonneg v (by decide)


/-- C1: for every valid request and every feasible solver valuation, and for
every timeframe `t` in `1..timeframes`, the number of entries of the returned
schedule whose `start_time` equals `t` is at most `rig_limit`. -/
theorem rig_limit_bounds_per_timeframe (req : WellScheduleRequest)
    (out : SolverOutcome) (t : Int) (sched : List WellScheduleResponse)
    (hv : ValidRequest req)
    (hfeas : Feasible req.wells req.timeframes req.rig_limit out.value)
    (ht1 : 1 ≤ t) (ht2 : t ≤ req.timeframes)
    (hs : optimize_well_schedule req out = .ok sched) :
    ((sched.countP (fun e => e.start_time == t)) : Int) ≤ req.rig_limit := by
  have hsched := optimize_eq_ok hs
  subst hsched
  rw [countP_start_extract req.wells out.value (mem_tfRange.mpr ⟨ht1, ht2⟩)]
  exact hfeas.2 t (mem_tfRange.mpr ⟨ht1, ht2⟩)

theorem rig_limit_bounds_per_timeframe_witness :
    ((schedAB.countP (fun e => e.start_time == 1)) : Int) ≤ R6.rig_limit :=
  rig_limit_bounds_per_timeframe R6 outAB 1 schedAB validRequest_R6 (by decide)
    (by decide) (by decide) rfl

/-- C2: for every valid request and feasible solver valuation, no well label
appears in more than one entry of the returned schedule. -/
theorem well_scheduled_at_most_once (req : WellScheduleRequest)
    (out : SolverOutcome) (w : String) (sched : List WellScheduleResponse)
    (hv : ValidRequest req)
    (hfeas : Feasible req.wells req.timeframes req.rig_limit out.value)
    (hs : optimize_well_schedule req out = .ok sched) :
    sched.countP (fun e => e.well == w) ≤ 1 := by
  have hsched := optimize_eq_ok hs
  subst hsched
  have h := countP_well_extract_le req.wells out.value w hv.1 hfeas.1
  omega

theorem well_scheduled_at_most_once_witness :
    schedAB.countP (fun e => e.well == "A") ≤ 1 :=
  well_scheduled_at_most_once R6 outAB "A" schedAB validRequest_R6 (by decide)
    rfl

/-- C3: for every valid request, every returned entry has
`finish_time = start_time + 1`, and the entry `{well, t, t+1}` is in the
returned schedule exactly when the solved binary variable for `(well, t)`
has value 1. -/
theorem extraction_characterization (req : WellScheduleRequest)
    (out : SolverOutcome) (sched : List WellScheduleResponse)
    (hv : ValidRequest req)
    (hs : optimize_well_schedule req out = .ok sched) :
    (∀ e ∈ sched, e.finish_time = e.start_time + 1) ∧
      ∀ w ∈ req.wells, ∀ t ∈ tfRange req.timeframes,
        ((⟨w, t, t + 1⟩ : WellScheduleResponse) ∈ sched ↔
          out.value (w, t) = true) := by
  have hsched := optimize_eq_ok hs
  subst hsched
  constructor
  · intro e he
    exact (mem_extractSchedule.mp he).2.2.2
  · intro w hw t ht
    constructor
    · intro hmem
      exact (mem_extractSchedule.mp hmem).2.2.1
    · intro hval
      exact mem_extractSchedule.mpr ⟨hw, ht, hval, rfl⟩

theorem extraction_characterization_witness :
    (⟨"A", 2, 2 + 1⟩ : WellScheduleResponse) ∈ schedAB :=
  ((extraction_characterization R6 outAB schedAB validRequest_R6 rfl).2
    "A" (by decide) 2 (by decide)).mpr rfl

/-- C4: the claim says malformed cost tables and non-positive timeframe
counts are rejected with a validation error before model construction.  The
code has no validation: a non-positive timeframe count (`R4a`) silently
returns an empty schedule, and a missing capex key (`R4b`) or a short cost
row (`R4c`) raises a lookup error out of the objective construction — after
the problem and its variables were already created — rather than a
validation error. -/
theorem malformed_requests_not_validated :
    optimize_well_schedule R4a outAllTrue = .ok [] ∧
      optimize_well_schedule R4b outAllTrue = .error "KeyError: B" ∧
      optimize_well_schedule R4c outAllTrue = .error "IndexError: A" :=
  ⟨rfl, rfl, rfl⟩

/-- C5: the claim says solver infeasibility or failure is surfaced as a
distinct error.  The code discards the status `problem.solve()` returns:
`R5` has an infeasible model (negative rig limit — no valuation is feasible),
yet the endpoint answers with the same successful empty schedule a genuinely
solved zero-well request (`R5ok`) produces. -/
theorem solver_status_not_surfaced :
    (∀ v : String × Int → Bool,
      ¬ Feasible R5.wells R5.timeframes R5.rig_limit v) ∧
      optimize_well_schedule R5 outInfeasible = .ok [] ∧
      optimize_well_schedule R5ok outAllFalse = .ok [] := by
  refine ⟨?_, rfl, rfl⟩
  intro v hf
  have h2 := hf.2 1 (by decide)
  have h3 : R5.rig_limit = -1 := rfl
  rw [h3] at h2
  omega

/-- C6: the claim says the scenario request `R6` yields the schedule
{A → 2, B → 1} with total cost 13.  The code's per-well constraint is
"at most once", so the all-zero valuation is feasible with cost 0: every
cost-minimal solver outcome has objective value 0 and the endpoint returns
the empty schedule, not the claimed assignment. -/
theorem scenario_optimal_schedule_empty (out : SolverOutcome)
    (hopt : OptimalFor R6.wells R6.timeframes R6.rig_limit terms6 out.value) :
    optimize_well_schedule R6 out = .ok [] ∧ solCost terms6 out.value = 0 := by
  have hcover : ∀ w ∈ R6.wells, ∀ t ∈ tfRange R6.timeframes,
      ∃ c, ((w, t), c) ∈ terms6 := by
    intro w hw t ht
    have hw' : w ∈ ["A", "B"] := hw
    have ht' : t ∈ [(1 : Int), 2] := ht
    fin_cases hw' <;> fin_cases ht'
    · exact ⟨10, by decide⟩
    · exact ⟨5, by decide⟩
    · exact ⟨8, by decide⟩
    · exact ⟨12, by decide⟩
  obtain ⟨hnil, h0⟩ := optimal_extract_nil (by decide) (by decide) hcover hopt
  refine ⟨?_, h0⟩
  unfold optimize_well_schedule
  rw [objectiveTerms_R6, hnil]

theorem scenario_optimal_schedule_empty_witness :
    optimize_well_schedule R6 outAllFalse = .ok [] ∧
      solCost terms6 outAllFalse.value = 0 :=
  scenario_optimal_schedule_empty outAllFalse optimalFor_allFalse_R6

/-- C7: for every valid request with `rig_limit = 0` and every solver
valuation satisfying the model's constraints, the endpoint returns the empty
schedule. -/
theorem rig_limit_zero_schedule_empty (req : WellScheduleRequest)
    (out : SolverOutcome)
    (hv : ValidRequest req) (h0 : req.rig_limit = 0)
    (hfeas : Feasible req.wells req.timeframes req.rig_limit out.value) :
    optimize_well_schedule req out = .ok [] := by
  have hterms := objectiveTerms_eq_of_valid req hv
  have hnil : extractSchedule req.wells req.timeframes out.value = [] := by
    apply extractSchedule_eq_nil
    intro w hw t ht
    have h2 := hfeas.2 t ht
    rw [h0] at h2
    have hz : req.wells.countP (fun w' => out.value (w', t)) = 0 := by omega
    have hnot := List.countP_eq_zero.mp hz w hw
    simpa using hnot
  unfold optimize_well_schedule
  rw [hterms, hnil]

theorem rig_limit_zero_schedule_empty_witness :
    optimize_well_schedule R7 outAllFalse = .ok [] :=
  rig_limit_zero_schedule_empty R7 outAllFalse
    (by
      refine ⟨by decide, by decide, ?_, by decide⟩
      intro w hw
      have hw' : w ∈ ["A"] := hw
      fin_cases hw'
      exact ⟨[3], rfl, rfl⟩)
    rfl (feasible_allFalse (by decide))

/-- C8: the objective value is deterministic for a given input — two solver
outcomes for the same request that both satisfy the solver contract give
returned schedules with the same total capex cost and equal objective
values. -/
theorem objective_value_deterministic (req : WellScheduleRequest)
    (out1 out2 : SolverOutcome) (terms : List ((String × Int) × Int))
    (s1 s2 : List WellScheduleResponse)
    (hv : ValidRequest req)
    (hterms : objectiveTerms req.wells req.timeframes req.capex = .ok terms)
    (hopt1 : OptimalFor req.wells req.timeframes req.rig_limit terms out1.value)
    (hopt2 : OptimalFor req.wells req.timeframes req.rig_limit terms out2.value)
    (hs1 : optimize_schedule req out1 = .ok s1)
    (hs2 : optimize_schedule req out2 = .ok s2) :
    scheduleCost req.capex s1 = scheduleCost req.capex s2 ∧
      solCost terms out1.value = solCost terms out2.value := by
  have heq : solCost terms out1.value = solCost terms out2.value :=
    le_antisymm (hopt1.2 _ hopt2.1) (hopt2.2 _ hopt1.1)
  have hterms' := objectiveTerms_eq_of_valid req hv
  rw [hterms] at hterms'
  injection hterms' with hT
  have h1 : s1 = extractSchedule req.wells req.timeframes out1.value :=
    optimize_eq_ok hs1
  have h2 : s2 = extractSchedule req.wells req.timeframes out2.value :=
    optimize_eq_ok hs2
  subst h1
  subst h2
  rw [scheduleCost_extract, scheduleCost_extract, ← hT]
  exact ⟨heq, heq⟩

theorem objective_value_deterministic_witness :
    scheduleCost R6.capex [] = scheduleCost R6.capex [] ∧
      solCost terms6 outAllFalse.value = solCost terms6 outAllFalse.value :=
  objective_value_deterministic R6 outAllFalse outAllFalse terms6 [] []
    validRequest_R6 objectiveTerms_R6 optimalFor_allFalse_R6
    optimalFor_allFalse_R6 rfl rfl

/-- C9: the visualization endpoint takes no input, reads no optimization
state, and always answers status 200 with an HTML document embedding the
chart rendered from the fixed five-well sample table. -/
theorem visualization_static (render : ScheduleData → String) :
    visualize_schedule render =
      { content := "<html><body>" ++ render schedule_data ++ "</body></html>",
        status_code := 200 } ∧
      schedule_data.Well.length = 5 :=
  ⟨rfl, rfl⟩

/-- C10: whenever the optimize operation returns a schedule, every entry's
well label is drawn from the request's wells and its start time lies in
`1..timeframes`; in particular a non-positive timeframe count yields the
empty schedule. -/
theorem schedule_entries_within_request (req : WellScheduleRequest)
    (out : SolverOutcome) (sched : List WellScheduleResponse)
    (hs : optimize_well_schedule req out = .ok sched) :
    (∀ e ∈ sched, e.well ∈ req.wells ∧ 1 ≤ e.start_time ∧
      e.start_time ≤ req.timeframes) ∧
      (req.timeframes ≤ 0 → sched = []) := by
  have hsched := optimize_eq_ok hs
  subst hsched
  constructor
  · intro e he
    have hm := mem_extractSchedule.mp he
    have hb := mem_tfRange.mp hm.2.1
    exact ⟨hm.1, hb.1, hb.2⟩
  · intro hle
    apply extractSchedule_eq_nil
    intro w hw t ht
    rw [tfRange_eq_nil hle] at ht
    cases ht

theorem schedule_entries_within_request_witness :
    ([] : List WellScheduleResponse) = [] :=
  (schedule_entries_within_request R4a outAllTrue [] rfl).2 (by decide)

end WellScheduler
